import Mathlib

/-!
Verification of the numeric kernels and UI state fragments of the
"Clouds on Mars" single-page demo (src/src/App.tsx).

The curve generator `useCurve`, the derived horizon (`t90`, `derivedTMax`),
the "Drivers of Liking" ranking/stability computation, the Azure/Fabric
comparison table rendering, and the per-fragment UI state transitions are
embedded below; JavaScript floating-point numbers are modelled as real
numbers (ℝ) for the transcendental curve kernels and as rationals (ℚ) for
the exact decimal weight tables, `Math.random()` draws are modelled as an
explicit stream of values.
-/

namespace ComRnd

/-- Point record produced by `useCurve` (fields t, y, yLo, yHi). -/
structure CurvePt where
  t : ℝ
  y : ℝ
  yLo : ℝ
  yHi : ℝ

/-- The two closed-form curve shapes selectable in `WeightLossProjection`. -/
inductive CurveModel
  | exp
  | logistic

/-- Logistic steepness `s = Math.max(1e-3, 10 * k)` (App.tsx line 120). -/
noncomputable def logisticSteepness (k : ℝ) : ℝ := max 0.001 (10 * k)

/-- The ideal (noise-free) curve value computed inside the loop of
`useCurve` (App.tsx lines 117-122): `exp(-k*t)` for the exponential
model, `1 - L/(1+exp(-s*(t-x0)))` with `L = 1`, `x0 = tMax*0.25` for the
logistic model. -/
noncomputable def idealValue (model : CurveModel) (k tMax t : ℝ) : ℝ :=
  match model with
  | CurveModel.exp => Real.exp (-k * t)
  | CurveModel.logistic =>
      1 - 1 / (1 + Real.exp (-(logisticSteepness k) * (t - tMax * 0.25)))

/-- Noise perturbation `eps = noise ? (Math.random()-0.5)*2*noise*ideal : 0`
(App.tsx line 123); `rnd` stands for the `Math.random()` draw. -/
noncomputable def noiseTerm (noise ideal rnd : ℝ) : ℝ :=
  if noise = 0 then 0 else (rnd - 0.5) * 2 * noise * ideal

/-- One iteration of the `useCurve` loop body (App.tsx lines 117-125):
clamp the perturbed value to [0,1] and attach the ±10% band. -/
noncomputable def curvePoint (model : CurveModel) (k tMax noise rnd t : ℝ) : CurvePt :=
  let ideal := idealValue model k tMax t
  let y := max 0 (min 1 (ideal + noiseTerm noise ideal rnd))
  { t := t, y := y, yLo := max 0 (y * 0.9), yHi := min 1 (y * 1.1) }

/-- Loop step `Math.max(1, Math.floor(tMax / 60))` (App.tsx line 115). -/
noncomputable def curveStep (tMax : ℝ) : ℝ := max 1 ((⌊tMax / 60⌋ : ℤ) : ℝ)

/-- Number of iterations of `for (let t = 0; t <= tMax; t += step)`:
the sampled times are the multiples `i * step` with `i * step ≤ tMax`. -/
noncomputable def numPts (tMax : ℝ) : ℕ :=
  if 0 ≤ tMax then (⌊tMax / curveStep tMax⌋).toNat + 1 else 0

/-- The full list of points generated by `useCurve` (App.tsx lines 112-129);
`rnd i` is the `Math.random()` draw of the i-th iteration. -/
noncomputable def useCurve (model : CurveModel) (k tMax noise : ℝ) (rnd : ℕ → ℝ) :
    List CurvePt :=
  (List.range (numPts tMax)).map fun i =>
    curvePoint model k tMax noise (rnd i) ((i : ℝ) * curveStep tMax)

/-- Derived 90%-decline horizon `t90 = Math.log(10) / Math.max(1e-6, k)`
(App.tsx line 135). -/
noncomputable def t90 (k : ℝ) : ℝ := Real.log 10 / max 0.000001 k

/-- Derived chart horizon `tMax = Math.ceil(t90 * 1.2)` (App.tsx line 136). -/
noncomputable def derivedTMax (k : ℝ) : ℝ := ((⌈t90 k * 1.2⌉ : ℤ) : ℝ)

/-- Time-point labels of the "Drivers of Liking" demo. -/
inductive TimePoint
  | day1
  | day7
  | day14

/-- The fixed weight table `SAMPLE_FEATURES` (App.tsx lines 217-221),
in object-entry order. -/
def SAMPLE_FEATURES : TimePoint → List (String × ℚ)
  | TimePoint.day1 =>
      [("Freshness", 0.24), ("Sillage", 0.18), ("Longevity", 0.12), ("Price", 0.06),
       ("Brand", 0.05), ("Eco Score", 0.08), ("Package", 0.10), ("Texture", 0.17)]
  | TimePoint.day7 =>
      [("Freshness", 0.18), ("Sillage", 0.22), ("Longevity", 0.16), ("Price", 0.05),
       ("Brand", 0.04), ("Eco Score", 0.09), ("Package", 0.08), ("Texture", 0.18)]
  | TimePoint.day14 =>
      [("Freshness", 0.15), ("Sillage", 0.25), ("Longevity", 0.19), ("Price", 0.04),
       ("Brand", 0.03), ("Eco Score", 0.10), ("Package", 0.07), ("Texture", 0.17)]

/-- The perturbed feature list of `DriversOfLiking` (App.tsx lines 228-231):
each weight gets `max(0, v + (Math.random()-0.5)*2*noise)`; `rnd i` is the
draw for the i-th entry. -/
def driverFeatures (tp : TimePoint) (noise : ℚ) (rnd : ℕ → ℚ) : List (String × ℚ) :=
  (SAMPLE_FEATURES tp).enum.map fun p => (p.2.1, max 0 (p.2.2 + (rnd p.1 - 0.5) * 2 * noise))

/-- Stable descending sort by value, the semantics of the JavaScript
`[...xs].sort((a, b) => b.value - a.value)` (Array.prototype.sort is
stable and this comparator orders by descending value). -/
def sortByValueDesc (l : List (String × ℚ)) : List (String × ℚ) :=
  l.insertionSort fun a b => b.2 ≤ a.2

/-- The descending ranking of driver names (`sorted`, App.tsx line 241,
projected to names). -/
def driverOrder (tp : TimePoint) (noise : ℚ) (rnd : ℕ → ℚ) : List String :=
  (sortByValueDesc (driverFeatures tp noise rnd)).map fun f => f.1

/-- The reference ranking `ref` of the stability score (App.tsx line 234):
Day 1 weights sorted descending, projected to names. -/
def refOrder : List String :=
  (sortByValueDesc (SAMPLE_FEATURES TimePoint.day1)).map fun f => f.1

/-- Descending sort order of the fixed input weights of a time point,
the spec's reference ranking for the drivers demo. -/
def weightOrder (tp : TimePoint) : List String :=
  (sortByValueDesc (SAMPLE_FEATURES tp)).map fun f => f.1

/-- Positionwise match count of the stability loop (App.tsx lines 236-237). -/
def matchCount : List String → List String → ℕ
  | a :: as, b :: bs => (if a = b then 1 else 0) + matchCount as bs
  | _, _ => 0

/-- Raw stability score `(matches/order.length)*0.3 + 0.7 - noise*0.5`
(App.tsx line 238). -/
def stabilityScore (tp : TimePoint) (noise : ℚ) (rnd : ℕ → ℚ) : ℚ :=
  ((matchCount (driverOrder tp noise rnd) refOrder : ℚ) /
      ((driverOrder tp noise rnd).length : ℚ)) * 0.3 + 0.7 - noise * 0.5

/-- Stability value as displayed: `Math.max(0.5, Math.min(1, stability))`
(App.tsx line 260). -/
def displayedStability (tp : TimePoint) (noise : ℚ) (rnd : ℕ → ℚ) : ℚ :=
  max 0.5 (min 1 (stabilityScore tp noise rnd))

/-- One row of the Azure/Fabric capability table. -/
structure CapRow where
  name : String
  classic : Bool
  fabric : Bool

/-- The fixed `rows` array of `AzureComparison` (App.tsx lines 321-330). -/
def capRows : List CapRow :=
  [⟨"OneLake (unified storage)", false, true⟩,
   ⟨"Delta / Lakehouse", true, true⟩,
   ⟨"Pipelines / ADF", true, true⟩,
   ⟨"AutoML / MLflow", true, true⟩,
   ⟨"Real‑Time Intelligence (KQL)", false, true⟩,
   ⟨"Embedded Analytics (PBI)", true, true⟩,
   ⟨"Shortcuts (no-copy links)", false, true⟩,
   ⟨"MLOps registry", true, true⟩]

/-- Text shown in a capability cell by `CapabilityRow` (App.tsx lines
311/314): "Yes" for true, "—" for false. -/
def cellText (b : Bool) : String := if b then "Yes" else "—"

/-- The rows as passed to `CapabilityRow` (App.tsx lines 343-345): the
fabric flag is `showFabric ? r.fabric : false`, classic is passed through. -/
def renderedRows (showFabric : Bool) : List CapRow :=
  capRows.map fun r =>
    { name := r.name, classic := r.classic,
      fabric := if showFabric then r.fabric else false }

/-- Local state of `WeightLossProjection` (App.tsx lines 132-134). -/
structure WLPState where
  k : ℝ
  noise : ℝ
  model : CurveModel

/-- Local state of `InteractiveArea` (App.tsx line 186). -/
structure AreaState where
  pin : Option (ℝ × ℝ)

/-- Local state of `DriversOfLiking` (App.tsx lines 224-226). -/
structure DOLState where
  tp : TimePoint
  noise : ℚ
  selected : Option String

/-- Local state of `AzureComparison` (App.tsx line 320). -/
structure AzureState where
  showFabric : Bool

/-- Local state of `Timeline` (App.tsx line 362). -/
structure TimelineState where
  openIdx : Option ℕ

/-- The combined ephemeral UI state of the page: one field per fragment
owning a `useState`. -/
structure AppState where
  wlp : WLPState
  area : AreaState
  dol : DOLState
  azure : AzureState
  timeline : TimelineState
  pauseAnim : Bool

/-- User interactions that mutate fragment state (click handlers in
App.tsx). -/
inductive UIEvent
  | setModelChip (m : CurveModel)
  | setKSlider (v : ℝ)
  | setWlpNoise (v : ℝ)
  | pinPoint (p : Option (ℝ × ℝ))
  | setTpChip (tp : TimePoint)
  | setDolNoise (v : ℚ)
  | selectBar (n : Option String)
  | toggleFabric
  | toggleMilestone (i : ℕ)
  | togglePause

/-- State transition of the page: each event invokes exactly the setter
wired to its control in App.tsx (chips call `setModel`/`setTp`, the
Toggle calls `onChange(!checked)`, milestone buttons toggle `openIdx`,
the header button flips `pauseAnim`). -/
def applyEvent (s : AppState) : UIEvent → AppState
  | UIEvent.setModelChip m => { s with wlp := { s.wlp with model := m } }
  | UIEvent.setKSlider v => { s with wlp := { s.wlp with k := v } }
  | UIEvent.setWlpNoise v => { s with wlp := { s.wlp with noise := v } }
  | UIEvent.pinPoint p => { s with area := { pin := p } }
  | UIEvent.setTpChip tp => { s with dol := { s.dol with tp := tp } }
  | UIEvent.setDolNoise v => { s with dol := { s.dol with noise := v } }
  | UIEvent.selectBar n => { s with dol := { s.dol with selected := n } }
  | UIEvent.toggleFabric => { s with azure := { showFabric := !s.azure.showFabric } }
  | UIEvent.toggleMilestone i =>
      { s with timeline :=
          { openIdx := if s.timeline.openIdx = some i then none else some i } }
  | UIEvent.togglePause => { s with pauseAnim := !s.pauseAnim }

/-! Helper lemmas -/

/-- The loop step is at least 1. -/
theorem one_le_curveStep (tMax : ℝ) : 1 ≤ curveStep tMax := le_max_left _ _

/-- The loop step is positive. -/
theorem curveStep_pos (tMax : ℝ) : 0 < curveStep tMax :=
  lt_of_lt_of_le one_pos (one_le_curveStep tMax)

/-- For a nonnegative horizon the loop runs at least once. -/
theorem numPts_pos {tMax : ℝ} (h : 0 ≤ tMax) : 0 < numPts tMax := by
  unfold numPts
  rw [if_pos h]
  exact Nat.succ_pos _

/-- Sampled index bound: the i-th point exists iff `i * step ≤ tMax`. -/
theorem lt_numPts_iff {tMax : ℝ} (hT : 0 ≤ tMax) (i : ℕ) :
    i < numPts tMax ↔ (i : ℝ) * curveStep tMax ≤ tMax := by
  have hs : 0 < curveStep tMax := curveStep_pos tMax
  have hf : (0 : ℤ) ≤ ⌊tMax / curveStep tMax⌋ :=
    Int.floor_nonneg.mpr (div_nonneg hT hs.le)
  unfold numPts
  rw [if_pos hT, Nat.lt_succ_iff, Int.le_toNat hf, Int.le_floor, le_div_iff₀ hs]
  push_cast
  exact Iff.rfl

/-- Membership introduction for `useCurve`. -/
theorem point_mem (model : CurveModel) (k tMax noise : ℝ) (rnd : ℕ → ℝ) {i : ℕ}
    (h : i < numPts tMax) :
    curvePoint model k tMax noise (rnd i) ((i : ℝ) * curveStep tMax) ∈
      useCurve model k tMax noise rnd :=
  List.mem_map_of_mem _ (List.mem_range.mpr h)

/-- Membership elimination for `useCurve`. -/
theorem mem_useCurve_elim {model : CurveModel} {k tMax noise : ℝ} {rnd : ℕ → ℝ}
    {p : CurvePt} (hp : p ∈ useCurve model k tMax noise rnd) :
    ∃ i : ℕ, i < numPts tMax ∧
      p = curvePoint model k tMax noise (rnd i) ((i : ℝ) * curveStep tMax) := by
  obtain ⟨i, hi, rfl⟩ := List.mem_map.1 hp
  exact ⟨i, List.mem_range.1 hi, rfl⟩

/-- Field t of a generated point is its sampling time. -/
theorem curvePoint_t (model : CurveModel) (k tMax noise rnd t : ℝ) :
    (curvePoint model k tMax noise rnd t).t = t := rfl

/-- Field yLo in terms of y. -/
theorem curvePoint_yLo (model : CurveModel) (k tMax noise rnd t : ℝ) :
    (curvePoint model k tMax noise rnd t).yLo =
      max 0 ((curvePoint model k tMax noise rnd t).y * 0.9) := rfl

/-- Field yHi in terms of y. -/
theorem curvePoint_yHi (model : CurveModel) (k tMax noise rnd t : ℝ) :
    (curvePoint model k tMax noise rnd t).yHi =
      min 1 ((curvePoint model k tMax noise rnd t).y * 1.1) := rfl

/-- Generated y is clamped below by 0. -/
theorem curvePoint_y_nonneg (model : CurveModel) (k tMax noise rnd t : ℝ) :
    0 ≤ (curvePoint model k tMax noise rnd t).y := le_max_left _ _

/-- Generated y is clamped above by 1. -/
theorem curvePoint_y_le_one (model : CurveModel) (k tMax noise rnd t : ℝ) :
    (curvePoint model k tMax noise rnd t).y ≤ 1 :=
  max_le (by norm_num) (min_le_left _ _)

/-- With noise amplitude 0 the noise term is 0. -/
theorem noiseTerm_zero (ideal rnd : ℝ) : noiseTerm 0 ideal rnd = 0 := if_pos rfl

/-- With noise 0 the generated value is the ideal value whenever the
latter already lies in [0,1] (the clamp is the identity there). -/
theorem curvePoint_y_noise0 {model : CurveModel} {k tMax t : ℝ} (rnd : ℝ)
    (h0 : 0 ≤ idealValue model k tMax t) (h1 : idealValue model k tMax t ≤ 1) :
    (curvePoint model k tMax 0 rnd t).y = idealValue model k tMax t := by
  show max 0 (min 1 (idealValue model k tMax t + noiseTerm 0 (idealValue model k tMax t) rnd)) = _
  rw [noiseTerm_zero, add_zero, min_eq_right h1, max_eq_right h0]

/-- Exponential ideal values lie in [0,1] for nonnegative rate and time. -/
theorem idealValue_exp_mem {k tMax t : ℝ} (hk : 0 ≤ k) (ht : 0 ≤ t) :
    0 ≤ idealValue CurveModel.exp k tMax t ∧ idealValue CurveModel.exp k tMax t ≤ 1 := by
  unfold idealValue
  refine ⟨(Real.exp_pos _).le, Real.exp_le_one_iff.mpr ?_⟩
  have := mul_nonneg hk ht
  linarith

/-- Logistic ideal values lie strictly inside (0,1). -/
theorem idealValue_logistic_mem (k tMax t : ℝ) :
    0 < idealValue CurveModel.logistic k tMax t ∧
      idealValue CurveModel.logistic k tMax t < 1 := by
  unfold idealValue
  have hE : 0 < Real.exp (-(logisticSteepness k) * (t - tMax * 0.25)) := Real.exp_pos _
  have h1 : (0 : ℝ) < 1 + Real.exp (-(logisticSteepness k) * (t - tMax * 0.25)) := by linarith
  have h2 : 1 / (1 + Real.exp (-(logisticSteepness k) * (t - tMax * 0.25))) < 1 := by
    rw [div_lt_one h1]; linarith
  have h3 : 0 < 1 / (1 + Real.exp (-(logisticSteepness k) * (t - tMax * 0.25))) :=
    div_pos one_pos h1
  constructor <;> simp only [] <;> linarith

/-- The exponential ideal value is antitone in t for positive rate. -/
theorem idealValue_exp_anti {k tMax : ℝ} (hk : 0 < k) {t u : ℝ} (h : t ≤ u) :
    idealValue CurveModel.exp k tMax u ≤ idealValue CurveModel.exp k tMax t := by
  unfold idealValue
  apply Real.exp_le_exp.mpr
  nlinarith

/-- The positive steepness floor. -/
theorem logisticSteepness_pos (k : ℝ) : 0 < logisticSteepness k :=
  lt_max_iff.2 (Or.inl (by norm_num))

/-- The logistic ideal value is antitone in t. -/
theorem idealValue_logistic_anti (k tMax : ℝ) {t u : ℝ} (h : t ≤ u) :
    idealValue CurveModel.logistic k tMax u ≤ idealValue CurveModel.logistic k tMax t := by
  unfold idealValue
  have hs : 0 < logisticSteepness k := logisticSteepness_pos k
  have hExp : Real.exp (-(logisticSteepness k) * (u - tMax * 0.25)) ≤
      Real.exp (-(logisticSteepness k) * (t - tMax * 0.25)) := by
    apply Real.exp_le_exp.mpr
    nlinarith
  have hu : (0 : ℝ) < 1 + Real.exp (-(logisticSteepness k) * (u - tMax * 0.25)) := by
    have := Real.exp_pos (-(logisticSteepness k) * (u - tMax * 0.25)); linarith
  have ht : (0 : ℝ) < 1 + Real.exp (-(logisticSteepness k) * (t - tMax * 0.25)) := by
    have := Real.exp_pos (-(logisticSteepness k) * (t - tMax * 0.25)); linarith
  have hd : 1 / (1 + Real.exp (-(logisticSteepness k) * (t - tMax * 0.25))) ≤
      1 / (1 + Real.exp (-(logisticSteepness k) * (u - tMax * 0.25))) :=
    one_div_le_one_div_of_le hu (by linarith)
  linarith

/-- Generic non-increasing property of a noise-free curve whose ideal
values are antitone and within [0,1] on nonnegative times. -/
theorem useCurve_y_anti {model : CurveModel} {k tMax : ℝ} (rnd : ℕ → ℝ)
    (hb : ∀ t : ℝ, 0 ≤ t → 0 ≤ idealValue model k tMax t ∧ idealValue model k tMax t ≤ 1)
    (ha : ∀ t u : ℝ, 0 ≤ t → t ≤ u →
      idealValue model k tMax u ≤ idealValue model k tMax t) :
    ∀ p ∈ useCurve model k tMax 0 rnd, ∀ q ∈ useCurve model k tMax 0 rnd,
      p.t ≤ q.t → q.y ≤ p.y := by
  intro p hp q hq hpq
  obtain ⟨i, hi, rfl⟩ := mem_useCurve_elim hp
  obtain ⟨j, hj, rfl⟩ := mem_useCurve_elim hq
  have hs : 0 < curveStep tMax := curveStep_pos tMax
  have hti : 0 ≤ (i : ℝ) * curveStep tMax := by positivity
  have htj : 0 ≤ (j : ℝ) * curveStep tMax := by positivity
  rw [curvePoint_t, curvePoint_t] at hpq
  rw [curvePoint_y_noise0 _ (hb _ hti).1 (hb _ hti).2,
    curvePoint_y_noise0 _ (hb _ htj).1 (hb _ htj).2]
  exact ha _ _ hti hpq

/-- With noise amplitude 0 the perturbed feature list is the raw table. -/
theorem driverFeatures_noise0 (tp : TimePoint) (rnd : ℕ → ℚ) :
    driverFeatures tp 0 rnd = SAMPLE_FEATURES tp := by
  cases tp <;>
    norm_num [driverFeatures, SAMPLE_FEATURES, List.enum, List.enumFrom]

/-! Numeric bounds on the exponential and the natural logarithm of 10. -/

/-- Elementary upper bound of the exponential on [0,1). -/
theorem exp_le_inv_one_sub {x : ℝ} (h0 : 0 ≤ x) (h1 : x < 1) :
    Real.exp x ≤ (1 - x)⁻¹ := by
  have h2 : 1 - x ≤ Real.exp (-x) := by have := Real.add_one_le_exp (-x); linarith
  have h3 : (0 : ℝ) < 1 - x := by linarith
  have h4 : Real.exp x = (Real.exp (-x))⁻¹ := by rw [Real.exp_neg, inv_inv]
  rw [h4]
  exact inv_anti₀ h3 h2

/-- The exponential at 9/4 is below 10. -/
theorem exp_nine_quarters_lt_ten : Real.exp (9 / 4) < 10 := by
  have he1 : Real.exp 1 ≤ 2.7182818286 := Real.exp_one_lt_d9.le
  have hq : Real.exp (1 / 4) ≤ 4 / 3 := by
    have := exp_le_inv_one_sub (x := 1 / 4) (by norm_num) (by norm_num)
    norm_num at this
    linarith
  calc Real.exp (9 / 4) = Real.exp 1 * Real.exp 1 * Real.exp (1 / 4) := by
        rw [← Real.exp_add, ← Real.exp_add]; norm_num
    _ ≤ 2.7182818286 * 2.7182818286 * (4 / 3) := by gcongr
    _ < 10 := by norm_num

/-- The exponential at 7/3 is above 10. -/
theorem ten_lt_exp_seven_thirds : 10 < Real.exp (7 / 3) := by
  have he2 : (2.7182818283 : ℝ) ≤ Real.exp 1 := Real.exp_one_gt_d9.le
  have h6 : (7 / 6 : ℝ) ≤ Real.exp (1 / 6) := by
    have := Real.add_one_le_exp (1 / 6 : ℝ); linarith
  have h3 : (49 / 36 : ℝ) ≤ Real.exp (1 / 3) := by
    calc (49 / 36 : ℝ) = (7 / 6) * (7 / 6) := by norm_num
      _ ≤ Real.exp (1 / 6) * Real.exp (1 / 6) := by gcongr
      _ = Real.exp (1 / 3) := by rw [← Real.exp_add]; norm_num
  calc (10 : ℝ) < 2.7182818283 * 2.7182818283 * (49 / 36) := by norm_num
    _ ≤ Real.exp 1 * Real.exp 1 * Real.exp (1 / 3) := by gcongr
    _ = Real.exp (7 / 3) := by rw [← Real.exp_add, ← Real.exp_add]; norm_num

/-- The exponential at 9/4 is above 9.2. -/
theorem nine_point_two_lt_exp_nine_quarters : (9.2 : ℝ) < Real.exp (9 / 4) := by
  have he2 : (2.7182818283 : ℝ) ≤ Real.exp 1 := Real.exp_one_gt_d9.le
  have hq : (5 / 4 : ℝ) ≤ Real.exp (1 / 4) := by
    have := Real.add_one_le_exp (1 / 4 : ℝ); linarith
  calc (9.2 : ℝ) < 2.7182818283 * 2.7182818283 * (5 / 4) := by norm_num
    _ ≤ Real.exp 1 * Real.exp 1 * Real.exp (1 / 4) := by gcongr
    _ = Real.exp (9 / 4) := by rw [← Real.exp_add, ← Real.exp_add]; norm_num

/-- The exponential at 7/3 is below 10.65. -/
theorem exp_seven_thirds_lt : Real.exp (7 / 3) < 10.65 := by
  have he1 : Real.exp 1 ≤ 2.7182818286 := Real.exp_one_lt_d9.le
  have h6 : Real.exp (1 / 6) ≤ 6 / 5 := by
    have := exp_le_inv_one_sub (x := 1 / 6) (by norm_num) (by norm_num)
    norm_num at this
    linarith
  have h3 : Real.exp (1 / 3) ≤ 36 / 25 := by
    calc Real.exp (1 / 3) = Real.exp (1 / 6) * Real.exp (1 / 6) := by
          rw [← Real.exp_add]; norm_num
      _ ≤ (6 / 5) * (6 / 5) := by gcongr
      _ = 36 / 25 := by norm_num
  calc Real.exp (7 / 3) = Real.exp 1 * Real.exp 1 * Real.exp (1 / 3) := by
        rw [← Real.exp_add, ← Real.exp_add]; norm_num
    _ ≤ 2.7182818286 * 2.7182818286 * (36 / 25) := by gcongr
    _ < 10.65 := by norm_num

/-- Bounds on ln 10: it lies strictly between 9/4 and 7/3. -/
theorem log_ten_gt : 9 / 4 < Real.log 10 :=
  (Real.lt_log_iff_exp_lt (by norm_num)).mpr exp_nine_quarters_lt_ten

/-- Upper bound on ln 10. -/
theorem log_ten_lt : Real.log 10 < 7 / 3 :=
  (Real.log_lt_iff_lt_exp (by norm_num)).mpr ten_lt_exp_seven_thirds

/-- Two-sided bound on the exponential in a 1/20 band around 0. -/
theorem exp_band {d : ℝ} (h : |d| ≤ 1 / 20) :
    19 / 20 ≤ Real.exp d ∧ Real.exp d ≤ 20 / 19 := by
  rw [abs_le] at h
  constructor
  · have h1 : (19 / 20 : ℝ) ≤ Real.exp (-(1 / 20)) := by
      have := Real.add_one_le_exp (-(1 / 20) : ℝ); linarith
    exact h1.trans (Real.exp_le_exp.mpr (by linarith))
  · have h2 : Real.exp (1 / 20) ≤ (1 - 1 / 20)⁻¹ :=
      exp_le_inv_one_sub (by norm_num) (by norm_num)
    have h3 : Real.exp d ≤ Real.exp (1 / 20) := Real.exp_le_exp.mpr h.2
    have h4 : ((1 : ℝ) - 1 / 20)⁻¹ = 20 / 19 := by norm_num
    linarith

/-! Properties of the derived horizon. -/

/-- The derived 90%-decline time is positive for every rate. -/
theorem t90_pos (k : ℝ) : 0 < t90 k :=
  div_pos (Real.log_pos (by norm_num)) (lt_max_iff.2 (Or.inl (by norm_num)))

/-- Within the slider range the epsilon floor is inactive. -/
theorem t90_eq {k : ℝ} (h : 0.005 ≤ k) : t90 k = Real.log 10 / k := by
  unfold t90
  rw [max_eq_right (by linarith : (0.000001 : ℝ) ≤ k)]

/-- The ceiling is at least its argument. -/
theorem le_derivedTMax (k : ℝ) : t90 k * 1.2 ≤ derivedTMax k := Int.le_ceil _

/-- The ceiling exceeds its argument by less than one. -/
theorem derivedTMax_lt (k : ℝ) : derivedTMax k < t90 k * 1.2 + 1 := Int.ceil_lt_add_one _

/-- The derived horizon is positive. -/
theorem derivedTMax_pos (k : ℝ) : 0 < derivedTMax k :=
  lt_of_lt_of_le (by nlinarith [t90_pos k]) (le_derivedTMax k)

/-- The derived horizon is an integer value. -/
theorem floor_derivedTMax (k : ℝ) : ((⌊derivedTMax k⌋ : ℤ) : ℝ) = derivedTMax k := by
  unfold derivedTMax
  rw [Int.floor_intCast]

/-- The epsilon-floored guard is positive. -/
theorem maxEps_pos (k : ℝ) : 0 < max (0.000001 : ℝ) k :=
  lt_max_iff.2 (Or.inl (by norm_num))

/-- The steepness dominates ten times the floored rate guard. -/
theorem steepness_ge (k : ℝ) : 10 * max 0.000001 k ≤ logisticSteepness k := by
  unfold logisticSteepness
  rcases le_total k 0.0001 with h | h
  · have h1 : max (0.000001 : ℝ) k ≤ 0.0001 := max_le (by norm_num) h
    have h2 : (10 : ℝ) * max 0.000001 k ≤ 0.001 := by linarith
    exact h2.trans (le_max_left _ _)
  · have h1 : max (0.000001 : ℝ) k = k := max_eq_right (by linarith)
    rw [h1]
    exact le_max_right _ _

/-- The derived horizon scaled by the floored rate dominates 1.2·ln 10. -/
theorem maxEps_mul_derivedTMax_ge (k : ℝ) :
    1.2 * Real.log 10 ≤ max 0.000001 k * derivedTMax k := by
  have h := le_derivedTMax k
  unfold t90 at h
  have hM : 0 < max (0.000001 : ℝ) k := maxEps_pos k
  have h2 : Real.log 10 / max 0.000001 k * max 0.000001 k = Real.log 10 :=
    div_mul_cancel₀ _ hM.ne'
  nlinarith [mul_le_mul_of_nonneg_right h hM.le]

/-- The exponential of 3·ln 10 is 1000. -/
theorem exp_three_log_ten : Real.exp (3 * Real.log 10) = 1000 := by
  rw [show (3 : ℝ) * Real.log 10 = Real.log 10 + Real.log 10 + Real.log 10 by ring,
    Real.exp_add, Real.exp_add, Real.exp_log (by norm_num)]
  norm_num

/-- The logistic ideal value is within 1/1000 of 1 well before the
inflection point. -/
theorem logistic_ideal_ge {k tMax t : ℝ}
    (h : 3 * Real.log 10 ≤ logisticSteepness k * (tMax * 0.25 - t)) :
    1 - 1 / 1000 ≤ idealValue CurveModel.logistic k tMax t := by
  unfold idealValue
  have harg : -(logisticSteepness k) * (t - tMax * 0.25) =
      logisticSteepness k * (tMax * 0.25 - t) := by ring
  rw [harg]
  have hE : (1000 : ℝ) ≤ Real.exp (logisticSteepness k * (tMax * 0.25 - t)) := by
    rw [← exp_three_log_ten]
    exact Real.exp_le_exp.mpr h
  have hpos : (0 : ℝ) < 1 + Real.exp (logisticSteepness k * (tMax * 0.25 - t)) := by
    have := Real.exp_pos (logisticSteepness k * (tMax * 0.25 - t)); linarith
  have hdiv : 1 / (1 + Real.exp (logisticSteepness k * (tMax * 0.25 - t))) ≤ 1 / 1000 :=
    one_div_le_one_div_of_le (by norm_num) (by linarith)
  linarith

/-- The logistic ideal value is at most 1/1000 well after the
inflection point. -/
theorem logistic_ideal_le {k tMax t : ℝ}
    (h : 3 * Real.log 10 ≤ logisticSteepness k * (t - tMax * 0.25)) :
    idealValue CurveModel.logistic k tMax t ≤ 1 / 1000 := by
  unfold idealValue
  have harg : -(logisticSteepness k) * (t - tMax * 0.25) =
      -(logisticSteepness k * (t - tMax * 0.25)) := by ring
  rw [harg, Real.exp_neg]
  set E := Real.exp (logisticSteepness k * (t - tMax * 0.25)) with hE
  have hE1000 : (1000 : ℝ) ≤ E := by
    rw [hE, ← exp_three_log_ten]
    exact Real.exp_le_exp.mpr h
  have hEpos : (0 : ℝ) < E := Real.exp_pos _
  have hinvpos : (0 : ℝ) < E⁻¹ := by positivity
  have hpos : (0 : ℝ) < 1 + E⁻¹ := by linarith
  have hkey : 1 - 1 / (1 + E⁻¹) = E⁻¹ / (1 + E⁻¹) := by field_simp
  rw [hkey]
  have h1 : E⁻¹ / (1 + E⁻¹) ≤ E⁻¹ := div_le_self hinvpos.le (by linarith)
  have h2 : E⁻¹ ≤ 1 / 1000 := by
    rw [inv_eq_one_div]
    exact one_div_le_one_div_of_le (by norm_num) hE1000
  linarith

/-- The head of a generated curve is the point at time 0. -/
theorem useCurve_head (model : CurveModel) (k noise : ℝ) {tMax : ℝ} (rnd : ℕ → ℝ)
    (hT : 0 ≤ tMax) :
    (useCurve model k tMax noise rnd).head? =
      some (curvePoint model k tMax noise (rnd 0) 0) := by
  unfold useCurve numPts
  rw [if_pos hT, List.range_succ_eq_map]
  simp

/-- For horizons below 120 the loop step is exactly 1. -/
theorem curveStep_eq_one {tMax : ℝ} (h : tMax < 120) : curveStep tMax = 1 := by
  unfold curveStep
  apply max_eq_left
  have h2 : ⌊tMax / 60⌋ < 2 := Int.floor_lt.mpr (by push_cast; linarith)
  have h3 : ⌊tMax / 60⌋ ≤ 1 := by omega
  exact_mod_cast h3

/-- The exponential model value at time 0 with noise 0 is exactly 1. -/
theorem exp_head_y {k tMax : ℝ} (hk : 0 ≤ k) (rnd : ℝ) :
    (curvePoint CurveModel.exp k tMax 0 rnd 0).y = 1 := by
  rw [curvePoint_y_noise0 _ (idealValue_exp_mem hk le_rfl).1 (idealValue_exp_mem hk le_rfl).2]
  unfold idealValue
  rw [mul_zero, Real.exp_zero]

/-- Rational bracketing of exp(-2.31). -/
theorem exp_neg_231_bounds : (0.09 : ℝ) ≤ Real.exp (-2.31) ∧ Real.exp (-2.31) ≤ 0.11 := by
  constructor
  · have h1 : Real.exp (-(7 / 3)) ≤ Real.exp (-2.31) := Real.exp_le_exp.mpr (by norm_num)
    have h2 : Real.exp (-(7 / 3) : ℝ) = (Real.exp (7 / 3))⁻¹ := Real.exp_neg _
    have h3 : ((10.65 : ℝ))⁻¹ ≤ (Real.exp (7 / 3))⁻¹ :=
      inv_anti₀ (Real.exp_pos _) exp_seven_thirds_lt.le
    have h4 : (0.09 : ℝ) ≤ ((10.65 : ℝ))⁻¹ := by norm_num
    linarith
  · have h1 : Real.exp (-2.31) ≤ Real.exp (-(9 / 4)) := Real.exp_le_exp.mpr (by norm_num)
    have h2 : Real.exp (-(9 / 4) : ℝ) = (Real.exp (9 / 4))⁻¹ := Real.exp_neg _
    have h3 : (Real.exp (9 / 4))⁻¹ ≤ ((9.2 : ℝ))⁻¹ :=
      inv_anti₀ (by norm_num) nine_point_two_lt_exp_nine_quarters.le
    have h4 : ((9.2 : ℝ))⁻¹ ≤ 0.11 := by norm_num
    linarith

/-- For an integer-valued nonnegative horizon, the last sampled time is
at least 90% of the horizon. -/
theorem late_point_exists {tMax : ℝ} (hT0 : 0 ≤ tMax)
    (hint : ((⌊tMax⌋ : ℤ) : ℝ) = tMax) :
    ∃ j : ℕ, j < numPts tMax ∧ tMax * 0.9 ≤ (j : ℝ) * curveStep tMax := by
  have hspos : 0 < curveStep tMax := curveStep_pos tMax
  have hFnn : (0 : ℤ) ≤ ⌊tMax / curveStep tMax⌋ :=
    Int.floor_nonneg.mpr (div_nonneg hT0 hspos.le)
  refine ⟨(⌊tMax / curveStep tMax⌋).toNat, ?_, ?_⟩
  · unfold numPts
    rw [if_pos hT0]
    exact Nat.lt_succ_self _
  · have hcast : (((⌊tMax / curveStep tMax⌋).toNat : ℕ) : ℝ) =
        ((⌊tMax / curveStep tMax⌋ : ℤ) : ℝ) := by
      exact_mod_cast Int.toNat_of_nonneg hFnn
    rw [hcast]
    rcases le_or_lt (⌊tMax / 60⌋ : ℤ) 1 with hc | hc
    · have hs1 : curveStep tMax = 1 := by
        unfold curveStep
        exact max_eq_left (by exact_mod_cast hc)
      rw [hs1, div_one, mul_one, hint]
      linarith
    · have h2 : (2 : ℝ) ≤ ((⌊tMax / 60⌋ : ℤ) : ℝ) := by exact_mod_cast hc
      have hs2 : curveStep tMax = ((⌊tMax / 60⌋ : ℤ) : ℝ) := by
        unfold curveStep
        exact max_eq_right (by linarith)
      have hsle : curveStep tMax ≤ tMax / 60 := by
        rw [hs2]
        exact Int.floor_le _
      have hFl : tMax / curveStep tMax - 1 < ((⌊tMax / curveStep tMax⌋ : ℤ) : ℝ) :=
        Int.sub_one_lt_floor _
      have hTs : tMax / curveStep tMax * curveStep tMax = tMax :=
        div_mul_cancel₀ _ hspos.ne'
      nlinarith [mul_lt_mul_of_pos_right hFl hspos]

/-- In the slider range with the derived horizon, the loop step satisfies
`k * step ≤ 1/10` and `step ≤ 0.2 * (ln 10 / k)`. -/
theorem slider_step_bounds {k : ℝ} (h5 : 0.005 ≤ k) (h1 : k ≤ 0.1) :
    k * curveStep (derivedTMax k) ≤ 1 / 10 ∧
    curveStep (derivedTMax k) ≤ 0.2 * (Real.log 10 / k) := by
  have hk0 : (0 : ℝ) < k := by linarith
  have hL := log_ten_gt
  have hL2 := log_ten_lt
  have ht' : 22.5 ≤ Real.log 10 / k := by
    rw [le_div_iff₀ hk0]
    nlinarith
  have hT12 : Real.log 10 / k * 1.2 ≤ derivedTMax k := by
    have h := le_derivedTMax k
    rw [t90_eq h5] at h
    exact h
  have hTlt : derivedTMax k < Real.log 10 / k * 1.2 + 1 := by
    have h := derivedTMax_lt k
    rw [t90_eq h5] at h
    exact h
  have hkt : k * (Real.log 10 / k) = Real.log 10 := mul_div_cancel₀ _ hk0.ne'
  rcases le_or_lt (⌊derivedTMax k / 60⌋ : ℤ) 1 with hc | hc
  · have hs1 : curveStep (derivedTMax k) = 1 := by
      unfold curveStep
      exact max_eq_left (by exact_mod_cast hc)
    rw [hs1]
    exact ⟨by linarith, by nlinarith⟩
  · have h2 : (2 : ℝ) ≤ ((⌊derivedTMax k / 60⌋ : ℤ) : ℝ) := by exact_mod_cast hc
    have hs2 : curveStep (derivedTMax k) = ((⌊derivedTMax k / 60⌋ : ℤ) : ℝ) := by
      unfold curveStep
      exact max_eq_right (by linarith)
    have hsle : curveStep (derivedTMax k) ≤ derivedTMax k / 60 := by
      rw [hs2]
      exact Int.floor_le _
    constructor
    · have hks : k * curveStep (derivedTMax k) ≤ k * (derivedTMax k / 60) :=
        mul_le_mul_of_nonneg_left hsle hk0.le
      nlinarith [mul_lt_mul_of_pos_left hTlt hk0]
    · nlinarith

/-- In the slider range with the derived horizon, some sampled time lies
within half a step of `ln 10 / k`. -/
theorem nearest_grid_point {k : ℝ} (h5 : 0.005 ≤ k) (h1 : k ≤ 0.1) :
    ∃ j : ℕ, j < numPts (derivedTMax k) ∧
      |(j : ℝ) * curveStep (derivedTMax k) - Real.log 10 / k| ≤
        curveStep (derivedTMax k) / 2 := by
  have hk0 : (0 : ℝ) < k := by linarith
  have hspos : 0 < curveStep (derivedTMax k) := curveStep_pos _
  have hT0 : (0 : ℝ) ≤ derivedTMax k := (derivedTMax_pos k).le
  have ht'pos : 0 < Real.log 10 / k := div_pos (Real.log_pos (by norm_num)) hk0
  have ht'22 : 22.5 ≤ Real.log 10 / k := by
    rw [le_div_iff₀ hk0]
    nlinarith [log_ten_gt]
  have hsub : curveStep (derivedTMax k) ≤ 0.2 * (Real.log 10 / k) :=
    (slider_step_bounds h5 h1).2
  have hT12 : Real.log 10 / k * 1.2 ≤ derivedTMax k := by
    have h := le_derivedTMax k
    rw [t90_eq h5] at h
    exact h
  have hm0 : (0 : ℤ) ≤ ⌊Real.log 10 / k / curveStep (derivedTMax k)⌋ :=
    Int.floor_nonneg.mpr (div_nonneg ht'pos.le hspos.le)
  have hms : ((⌊Real.log 10 / k / curveStep (derivedTMax k)⌋ : ℤ) : ℝ) *
      curveStep (derivedTMax k) ≤ Real.log 10 / k := by
    have h := Int.floor_le (Real.log 10 / k / curveStep (derivedTMax k))
    have h2 := mul_le_mul_of_nonneg_right h hspos.le
    rwa [div_mul_cancel₀ _ hspos.ne'] at h2
  have hms2 : Real.log 10 / k < (((⌊Real.log 10 / k / curveStep (derivedTMax k)⌋ : ℤ) : ℝ) + 1) *
      curveStep (derivedTMax k) := by
    have h := Int.lt_floor_add_one (Real.log 10 / k / curveStep (derivedTMax k))
    have h2 := mul_lt_mul_of_pos_right h hspos
    rwa [div_mul_cancel₀ _ hspos.ne'] at h2
  have hcast : (((⌊Real.log 10 / k / curveStep (derivedTMax k)⌋).toNat : ℕ) : ℝ) =
      ((⌊Real.log 10 / k / curveStep (derivedTMax k)⌋ : ℤ) : ℝ) := by
    exact_mod_cast Int.toNat_of_nonneg hm0
  rcases le_or_lt (Real.log 10 / k -
      ((⌊Real.log 10 / k / curveStep (derivedTMax k)⌋ : ℤ) : ℝ) * curveStep (derivedTMax k))
      (curveStep (derivedTMax k) / 2) with hc | hc
  · refine ⟨(⌊Real.log 10 / k / curveStep (derivedTMax k)⌋).toNat, ?_, ?_⟩
    · rw [lt_numPts_iff hT0, hcast]
      nlinarith
    · rw [hcast, abs_le]
      constructor <;> nlinarith
  · refine ⟨(⌊Real.log 10 / k / curveStep (derivedTMax k)⌋).toNat + 1, ?_, ?_⟩
    · rw [lt_numPts_iff hT0]
      push_cast [Int.toNat_of_nonneg hm0]
      nlinarith
    · rw [abs_le]
      push_cast [Int.toNat_of_nonneg hm0]
      constructor <;> nlinarith

/-! Claim theorems -/

/-- C3: for every model kind, rate, horizon, noise amplitude in [0, 0.1]
and random stream, every value y generated by `useCurve` (perturbed and
re-clamped) lies within [0, 1]. -/
theorem c3_values_in_unit_interval (model : CurveModel) (k tMax noise : ℝ)
    (rnd : ℕ → ℝ) (h0 : 0 ≤ noise) (h1 : noise ≤ 0.1) :
    ∀ p ∈ useCurve model k tMax noise rnd, 0 ≤ p.y ∧ p.y ≤ 1 := by
  intro p hp
  obtain ⟨i, -, rfl⟩ := mem_useCurve_elim hp
  exact ⟨curvePoint_y_nonneg _ _ _ _ _ _, curvePoint_y_le_one _ _ _ _ _ _⟩

/-- C3 witness at the exponential model, k = 1, tMax = 1, noise = 0.05,
zero random stream, first generated point. -/
theorem c3_values_in_unit_interval_witness :
    (0 : ℝ) ≤ 0.05 ∧ (0.05 : ℝ) ≤ 0.1 ∧
      (0 ≤ (curvePoint CurveModel.exp 1 1 0.05 0 (((0 : ℕ) : ℝ) * curveStep 1)).y ∧
        (curvePoint CurveModel.exp 1 1 0.05 0 (((0 : ℕ) : ℝ) * curveStep 1)).y ≤ 1) :=
  ⟨by norm_num, by norm_num,
    c3_values_in_unit_interval CurveModel.exp 1 1 0.05 (fun _ => 0) (by norm_num)
      (by norm_num) _ (point_mem CurveModel.exp 1 1 0.05 (fun _ => 0)
        (numPts_pos (by norm_num)))⟩

/-- C6: for every generated point, the band bounds are the value's ±10%
clamped to [0,1]: `yLo = clamp(0.9·y)` and `yHi = clamp(1.1·y)` (since
`y ∈ [0,1]`, `0.9·y` needs no upper clamp and `1.1·y` no lower clamp,
matching `yLo = max(0, y*0.9)` and `yHi = min(1, y*1.1)` in the code). -/
theorem c6_uncertainty_bands (model : CurveModel) (k tMax noise : ℝ) (rnd : ℕ → ℝ) :
    ∀ p ∈ useCurve model k tMax noise rnd,
      p.yLo = max 0 (min 1 (0.9 * p.y)) ∧ p.yHi = max 0 (min 1 (1.1 * p.y)) := by
  intro p hp
  obtain ⟨i, -, rfl⟩ := mem_useCurve_elim hp
  have h0 := curvePoint_y_nonneg model k tMax noise (rnd i) ((i : ℝ) * curveStep tMax)
  have h1 := curvePoint_y_le_one model k tMax noise (rnd i) ((i : ℝ) * curveStep tMax)
  constructor
  · rw [curvePoint_yLo, min_eq_right (by nlinarith), mul_comm]
  · rw [curvePoint_yHi, max_eq_right (le_min (by norm_num) (by nlinarith)), mul_comm]

/-- C6 witness at the exponential model, k = 1, tMax = 1, noise = 0,
zero random stream, first generated point. -/
theorem c6_uncertainty_bands_witness :
    (curvePoint CurveModel.exp 1 1 0 0 (((0 : ℕ) : ℝ) * curveStep 1)).yLo =
        max 0 (min 1 (0.9 * (curvePoint CurveModel.exp 1 1 0 0 (((0 : ℕ) : ℝ) * curveStep 1)).y)) ∧
      (curvePoint CurveModel.exp 1 1 0 0 (((0 : ℕ) : ℝ) * curveStep 1)).yHi =
        max 0 (min 1 (1.1 * (curvePoint CurveModel.exp 1 1 0 0 (((0 : ℕ) : ℝ) * curveStep 1)).y)) :=
  c6_uncertainty_bands CurveModel.exp 1 1 0 (fun _ => 0) _
    (point_mem CurveModel.exp 1 1 0 (fun _ => 0) (numPts_pos (by norm_num)))

/-- C4: with noise amplitude 0, for each of the three time-point labels,
the descending-by-value ranking of drivers computed in `DriversOfLiking`
is exactly the descending sort order of the fixed input weights in
`SAMPLE_FEATURES` for that label. -/
theorem c4_driver_ranking (tp : TimePoint) (rnd : ℕ → ℚ) :
    driverOrder tp 0 rnd = weightOrder tp := by
  unfold driverOrder weightOrder
  rw [driverFeatures_noise0]

/-- C1 (amended): for the exponential model with noise 0, for every
positive rate k and positive horizon tMax the first point is
(t = 0, y = 1) and the generated values are monotonically non-increasing
in t; moreover, when k lies in the slider range [0.005, 0.1] and tMax is
the horizon the app derives (`ceil(1.2·t90)`), every generated point whose
sampled time is nearest `ln(10)/k` has a value within 0.01 of 0.1.
(The original claim, which asserted the ≈0.1 property for every positive
tMax, is refuted by `c1_nearest_value_counterexample`.) -/
theorem c1_exp_curve (k tMax : ℝ) (rnd : ℕ → ℝ) (hk : 0 < k) (hT : 0 < tMax) :
    (∃ p, (useCurve CurveModel.exp k tMax 0 rnd).head? = some p ∧ p.t = 0 ∧ p.y = 1) ∧
    (∀ p ∈ useCurve CurveModel.exp k tMax 0 rnd,
      ∀ q ∈ useCurve CurveModel.exp k tMax 0 rnd, p.t ≤ q.t → q.y ≤ p.y) ∧
    (0.005 ≤ k → k ≤ 0.1 → tMax = derivedTMax k →
      ∀ p ∈ useCurve CurveModel.exp k tMax 0 rnd,
        (∀ q ∈ useCurve CurveModel.exp k tMax 0 rnd, |p.t - t90 k| ≤ |q.t - t90 k|) →
          |p.y - 0.1| ≤ 0.01) := by
  refine ⟨⟨_, useCurve_head _ _ _ _ hT.le, rfl, exp_head_y hk.le _⟩,
    useCurve_y_anti rnd (fun t ht => idealValue_exp_mem hk.le ht)
      (fun t u ht htu => idealValue_exp_anti hk htu), ?_⟩
  intro h5 h1 hTeq p hp hmin
  subst hTeq
  have hk0 : (0 : ℝ) < k := hk
  have ht90v : t90 k = Real.log 10 / k := t90_eq h5
  obtain ⟨j, hj, hjdist⟩ := nearest_grid_point h5 h1
  have hq := hmin _ (point_mem _ _ _ _ rnd hj)
  rw [curvePoint_t, ht90v] at hq
  have hpd := hq.trans hjdist
  obtain ⟨i, hi, rfl⟩ := mem_useCurve_elim hp
  rw [curvePoint_t] at hpd
  have hti : 0 ≤ (i : ℝ) * curveStep (derivedTMax k) :=
    mul_nonneg (Nat.cast_nonneg i) (curveStep_pos _).le
  rw [curvePoint_y_noise0 _ (idealValue_exp_mem hk.le hti).1
    (idealValue_exp_mem hk.le hti).2]
  unfold idealValue
  have hkt : k * (Real.log 10 / k) = Real.log 10 := mul_div_cancel₀ _ hk0.ne'
  have hks : k * curveStep (derivedTMax k) ≤ 1 / 10 := (slider_step_bounds h5 h1).1
  rw [show -k * ((i : ℝ) * curveStep (derivedTMax k)) =
      (Real.log 10 - k * ((i : ℝ) * curveStep (derivedTMax k))) + (-Real.log 10) by ring,
    Real.exp_add, Real.exp_neg, Real.exp_log (by norm_num : (0 : ℝ) < 10)]
  have hd : |Real.log 10 - k * ((i : ℝ) * curveStep (derivedTMax k))| ≤ 1 / 20 := by
    rw [abs_sub_comm, show k * ((i : ℝ) * curveStep (derivedTMax k)) - Real.log 10 =
      k * ((i : ℝ) * curveStep (derivedTMax k) - Real.log 10 / k) by rw [mul_sub, hkt],
      abs_mul, abs_of_pos hk0]
    calc k * |(i : ℝ) * curveStep (derivedTMax k) - Real.log 10 / k| ≤
        k * (curveStep (derivedTMax k) / 2) := mul_le_mul_of_nonneg_left hpd hk0.le
      _ ≤ 1 / 20 := by linarith
  have hband := exp_band hd
  rw [abs_le]
  constructor <;> nlinarith [hband.1, hband.2]

/-- C1 counterexample: at k = 1, tMax = 1 (both positive), the sampled
time nearest `ln(10)/1` is t = 1, whose value `exp(-1) ≈ 0.368` differs
from 0.1 by more than 0.1 — far beyond floating-point tolerance. -/
theorem c1_nearest_value_counterexample :
    ∃ p ∈ useCurve CurveModel.exp 1 1 0 (fun _ => 0),
      (∀ q ∈ useCurve CurveModel.exp 1 1 0 (fun _ => 0),
        |p.t - t90 1| ≤ |q.t - t90 1|) ∧ 1 / 10 < |p.y - 0.1| := by
  have hs : curveStep 1 = 1 := curveStep_eq_one (by norm_num)
  have hT0 : (0 : ℝ) ≤ 1 := by norm_num
  have hnum : numPts 1 = 2 := by
    unfold numPts
    rw [if_pos hT0, hs]
    norm_num
  have ht90 : t90 1 = Real.log 10 := by
    unfold t90
    rw [max_eq_right (by norm_num)]
    exact div_one _
  have hL : (9 / 4 : ℝ) < Real.log 10 := log_ten_gt
  refine ⟨curvePoint CurveModel.exp 1 1 0 0 (((1 : ℕ) : ℝ) * curveStep 1),
    point_mem _ _ _ _ (fun _ => 0) (by rw [hnum]; norm_num), ?_, ?_⟩
  · intro q hq
    obtain ⟨i, hi, rfl⟩ := mem_useCurve_elim hq
    rw [hnum] at hi
    rw [curvePoint_t, curvePoint_t, hs, ht90]
    interval_cases i
    · push_cast
      rw [show (1 : ℝ) * 1 - Real.log 10 = -(Real.log 10 - 1) by ring,
        show (0 : ℝ) * 1 - Real.log 10 = -(Real.log 10) by ring, abs_neg, abs_neg,
        abs_of_nonneg (by linarith), abs_of_nonneg (by linarith)]
      linarith
    · exact le_refl _
  · have ht : (0 : ℝ) ≤ ((1 : ℕ) : ℝ) * curveStep 1 := by rw [hs]; norm_num
    rw [curvePoint_y_noise0 _ (idealValue_exp_mem (by norm_num) ht).1
      (idealValue_exp_mem (by norm_num) ht).2]
    unfold idealValue
    rw [show -(1 : ℝ) * (((1 : ℕ) : ℝ) * curveStep 1) = -1 by rw [hs]; push_cast; ring]
    have h5 : Real.exp 1 < 5 := lt_trans Real.exp_one_lt_d9 (by norm_num)
    have hpos := Real.exp_pos 1
    have hinv : (5 : ℝ)⁻¹ < (Real.exp 1)⁻¹ := by
      rw [inv_lt_inv₀ (by norm_num) hpos]
      exact h5
    have hexp : Real.exp (-1 : ℝ) = (Real.exp 1)⁻¹ := Real.exp_neg 1
    rw [abs_of_pos (by rw [hexp]; norm_num at hinv ⊢; linarith)]
    rw [hexp]
    norm_num at hinv ⊢
    linarith

/-- C1 witness at k = 0.1 with the derived horizon and zero stream. -/
theorem c1_exp_curve_witness :
    0 < (0.1 : ℝ) ∧ 0 < derivedTMax 0.1 ∧
    ((∃ p, (useCurve CurveModel.exp 0.1 (derivedTMax 0.1) 0 (fun _ => 0)).head? = some p ∧
        p.t = 0 ∧ p.y = 1) ∧
    (∀ p ∈ useCurve CurveModel.exp 0.1 (derivedTMax 0.1) 0 (fun _ => 0),
      ∀ q ∈ useCurve CurveModel.exp 0.1 (derivedTMax 0.1) 0 (fun _ => 0),
        p.t ≤ q.t → q.y ≤ p.y) ∧
    (0.005 ≤ (0.1 : ℝ) → (0.1 : ℝ) ≤ 0.1 → derivedTMax 0.1 = derivedTMax 0.1 →
      ∀ p ∈ useCurve CurveModel.exp 0.1 (derivedTMax 0.1) 0 (fun _ => 0),
        (∀ q ∈ useCurve CurveModel.exp 0.1 (derivedTMax 0.1) 0 (fun _ => 0),
          |p.t - t90 0.1| ≤ |q.t - t90 0.1|) → |p.y - 0.1| ≤ 0.01)) :=
  ⟨by norm_num, derivedTMax_pos 0.1,
    c1_exp_curve 0.1 (derivedTMax 0.1) (fun _ => 0) (by norm_num) (derivedTMax_pos 0.1)⟩

/-- C2: for model = exp, k = 0.03, noise = 0 and tMax derived as
`ceil(1.2·ln(10)/0.03)` (≈ 92; exactly 93), the first generated point is
(t = 0, y = 1) and the generated point at t = 77 (≈ ln(10)/k) has a value
within 0.01 of 0.1. -/
theorem c2_concrete_scenario (rnd : ℕ → ℝ) :
    (∃ p, (useCurve CurveModel.exp 0.03 (derivedTMax 0.03) 0 rnd).head? = some p ∧
        p.t = 0 ∧ p.y = 1) ∧
    (∃ p ∈ useCurve CurveModel.exp 0.03 (derivedTMax 0.03) 0 rnd,
        p.t = 77 ∧ |p.y - 0.1| ≤ 0.01) := by
  have hT0 : (0 : ℝ) ≤ derivedTMax 0.03 := (derivedTMax_pos _).le
  constructor
  · exact ⟨_, useCurve_head _ _ _ _ hT0, rfl, exp_head_y (by norm_num) (rnd 0)⟩
  · have ht90 : t90 0.03 = Real.log 10 / 0.03 := t90_eq (by norm_num)
    have h40 : Real.log 10 / 0.03 * 1.2 = 40 * Real.log 10 := by ring
    have hT1 : 40 * Real.log 10 ≤ derivedTMax 0.03 := by
      have h := le_derivedTMax 0.03
      rw [ht90, h40] at h
      exact h
    have hT2 : derivedTMax 0.03 < 40 * Real.log 10 + 1 := by
      have h := derivedTMax_lt 0.03
      rw [ht90, h40] at h
      exact h
    have hTgt : (90 : ℝ) < derivedTMax 0.03 := by nlinarith [log_ten_gt]
    have hTlt : derivedTMax 0.03 < 95 := by nlinarith [log_ten_lt]
    have hs : curveStep (derivedTMax 0.03) = 1 := curveStep_eq_one (by linarith)
    have h77 : (77 : ℕ) < numPts (derivedTMax 0.03) := by
      rw [lt_numPts_iff hT0, hs]
      push_cast
      linarith
    refine ⟨_, point_mem _ _ _ _ rnd h77, ?_, ?_⟩
    · rw [curvePoint_t, hs]
      norm_num
    · have ht77 : (0 : ℝ) ≤ ((77 : ℕ) : ℝ) * curveStep (derivedTMax 0.03) := by
        rw [hs]; norm_num
      rw [curvePoint_y_noise0 _ (idealValue_exp_mem (by norm_num) ht77).1
        (idealValue_exp_mem (by norm_num) ht77).2]
      unfold idealValue
      have harg : -0.03 * (((77 : ℕ) : ℝ) * curveStep (derivedTMax 0.03)) = -2.31 := by
        rw [hs]; push_cast; norm_num
      rw [harg, abs_le]
      have hb := exp_neg_231_bounds
      constructor <;> linarith [hb.1, hb.2]

/-- C5: for the logistic model with noise 0 and the derived horizon
`tMax = ceil(1.2·t90)` (with `x0 = 0.25·tMax` and steepness derived from
k), for every positive rate k: the generated value at t = 0 is within
1/1000 of 1, the curve reaches a sampled time ≥ 0.9·tMax where every
value is at most 1/1000 (the value approaches 0 as t grows large relative
to the horizon), and the generated sequence is monotonically
non-increasing in t. -/
theorem c5_logistic_curve (k : ℝ) (rnd : ℕ → ℝ) (hk : 0 < k) :
    (∃ p, (useCurve CurveModel.logistic k (derivedTMax k) 0 rnd).head? = some p ∧
        p.t = 0 ∧ 1 - 1 / 1000 ≤ p.y ∧ p.y ≤ 1) ∧
    (∃ p ∈ useCurve CurveModel.logistic k (derivedTMax k) 0 rnd,
        derivedTMax k * 0.9 ≤ p.t) ∧
    (∀ p ∈ useCurve CurveModel.logistic k (derivedTMax k) 0 rnd,
        derivedTMax k * 0.9 ≤ p.t → p.y ≤ 1 / 1000) ∧
    (∀ p ∈ useCurve CurveModel.logistic k (derivedTMax k) 0 rnd,
      ∀ q ∈ useCurve CurveModel.logistic k (derivedTMax k) 0 rnd,
        p.t ≤ q.t → q.y ≤ p.y) := by
  set T := derivedTMax k with hTdef
  have hT0 : 0 ≤ T := (derivedTMax_pos k).le
  have hM : 0 < max (0.000001 : ℝ) k := maxEps_pos k
  have hsM : 10 * max 0.000001 k ≤ logisticSteepness k := steepness_ge k
  have hMT : 1.2 * Real.log 10 ≤ max 0.000001 k * T := maxEps_mul_derivedTMax_ge k
  have hlog : 0 < Real.log 10 := Real.log_pos (by norm_num)
  have hIb : ∀ t : ℝ, 0 ≤ t →
      0 ≤ idealValue CurveModel.logistic k T t ∧ idealValue CurveModel.logistic k T t ≤ 1 :=
    fun t _ => ⟨(idealValue_logistic_mem k T t).1.le, (idealValue_logistic_mem k T t).2.le⟩
  refine ⟨?_, ?_, ?_, ?_⟩
  · refine ⟨curvePoint CurveModel.logistic k T 0 (rnd 0) 0,
      useCurve_head _ _ _ _ hT0, rfl, ?_, curvePoint_y_le_one _ _ _ _ _ _⟩
    rw [curvePoint_y_noise0 _ (idealValue_logistic_mem k T 0).1.le
      (idealValue_logistic_mem k T 0).2.le]
    apply logistic_ideal_ge
    have h1 : 10 * max 0.000001 k * (T * 0.25) ≤ logisticSteepness k * (T * 0.25) :=
      mul_le_mul_of_nonneg_right hsM (by positivity)
    nlinarith [h1, hMT, hlog]
  · obtain ⟨j, hj, hjt⟩ := late_point_exists hT0 (floor_derivedTMax k)
    exact ⟨_, point_mem _ _ _ _ _ hj, by rwa [curvePoint_t]⟩
  · intro p hp hpt
    obtain ⟨i, hi, rfl⟩ := mem_useCurve_elim hp
    rw [curvePoint_t] at hpt
    have hti : 0 ≤ (i : ℝ) * curveStep T :=
      mul_nonneg (Nat.cast_nonneg i) (curveStep_pos T).le
    rw [curvePoint_y_noise0 _ (idealValue_logistic_mem k T _).1.le
      (idealValue_logistic_mem k T _).2.le]
    apply logistic_ideal_le
    have h1 : 0 ≤ (i : ℝ) * curveStep T - T * 0.25 := by nlinarith
    have h2 : 10 * max 0.000001 k * ((i : ℝ) * curveStep T - T * 0.25) ≤
        logisticSteepness k * ((i : ℝ) * curveStep T - T * 0.25) :=
      mul_le_mul_of_nonneg_right hsM h1
    nlinarith [h2, hMT, hlog, mul_le_mul_of_nonneg_left hpt hM.le]
  · exact useCurve_y_anti rnd hIb (fun t u _ h => idealValue_logistic_anti k T h)

/-- C5 witness at k = 1 with the zero random stream. -/
theorem c5_logistic_curve_witness :
    0 < (1 : ℝ) ∧
    ((∃ p, (useCurve CurveModel.logistic 1 (derivedTMax 1) 0 (fun _ => 0)).head? = some p ∧
        p.t = 0 ∧ 1 - 1 / 1000 ≤ p.y ∧ p.y ≤ 1) ∧
    (∃ p ∈ useCurve CurveModel.logistic 1 (derivedTMax 1) 0 (fun _ => 0),
        derivedTMax 1 * 0.9 ≤ p.t) ∧
    (∀ p ∈ useCurve CurveModel.logistic 1 (derivedTMax 1) 0 (fun _ => 0),
        derivedTMax 1 * 0.9 ≤ p.t → p.y ≤ 1 / 1000) ∧
    (∀ p ∈ useCurve CurveModel.logistic 1 (derivedTMax 1) 0 (fun _ => 0),
      ∀ q ∈ useCurve CurveModel.logistic 1 (derivedTMax 1) 0 (fun _ => 0),
        p.t ≤ q.t → q.y ≤ p.y)) :=
  ⟨one_pos, c5_logistic_curve 1 (fun _ => 0) one_pos⟩

/-- C7: the derived 90%-decline horizon `t90 = ln(10)/max(1e-6, k)` and the
logistic steepness `s = max(1e-3, 10·k)` are positive (hence finite and
well-defined) for every rate `k`, including `k ≤ 0`, thanks to the
minimum-epsilon floors guarding the division and the exponential. -/
theorem c7_guarded_kernels (k : ℝ) :
    0 < max (0.000001 : ℝ) k ∧ 0 < t90 k ∧ 0 < logisticSteepness k := by
  have hm : (0 : ℝ) < max 0.000001 k := lt_max_iff.2 (Or.inl (by norm_num))
  refine ⟨hm, div_pos (Real.log_pos (by norm_num)) hm, lt_max_iff.2 (Or.inl (by norm_num))⟩

/-- C8: toggling the Show Fabric switch changes only the `AzureComparison`
fragment state, selecting a model chip changes only the
`WeightLossProjection` state, and selecting a time-point chip changes only
the `DriversOfLiking` state; every sibling fragment's local state is
unchanged. -/
theorem c8_frame_effect (s : AppState) :
    ((applyEvent s UIEvent.toggleFabric).wlp = s.wlp ∧
      (applyEvent s UIEvent.toggleFabric).area = s.area ∧
      (applyEvent s UIEvent.toggleFabric).dol = s.dol ∧
      (applyEvent s UIEvent.toggleFabric).timeline = s.timeline ∧
      (applyEvent s UIEvent.toggleFabric).pauseAnim = s.pauseAnim) ∧
    (∀ m, (applyEvent s (UIEvent.setModelChip m)).area = s.area ∧
      (applyEvent s (UIEvent.setModelChip m)).dol = s.dol ∧
      (applyEvent s (UIEvent.setModelChip m)).azure = s.azure ∧
      (applyEvent s (UIEvent.setModelChip m)).timeline = s.timeline ∧
      (applyEvent s (UIEvent.setModelChip m)).pauseAnim = s.pauseAnim) ∧
    (∀ tp, (applyEvent s (UIEvent.setTpChip tp)).wlp = s.wlp ∧
      (applyEvent s (UIEvent.setTpChip tp)).area = s.area ∧
      (applyEvent s (UIEvent.setTpChip tp)).azure = s.azure ∧
      (applyEvent s (UIEvent.setTpChip tp)).timeline = s.timeline ∧
      (applyEvent s (UIEvent.setTpChip tp)).pauseAnim = s.pauseAnim) :=
  ⟨⟨rfl, rfl, rfl, rfl, rfl⟩,
   fun _ => ⟨rfl, rfl, rfl, rfl, rfl⟩,
   fun _ => ⟨rfl, rfl, rfl, rfl, rfl⟩⟩

/-- C9: the displayed Stability score is always within [0.5, 1] (the raw
score is clamped via `max(0.5, min(1, ·))` before display), and with
noise 0 and time point Day 1 it is exactly 1. -/
theorem c9_stability (tp : TimePoint) (noise : ℚ) (rnd : ℕ → ℚ)
    (h0 : 0 ≤ noise) (h1 : noise ≤ 0.08) :
    (1 / 2 ≤ displayedStability tp noise rnd ∧ displayedStability tp noise rnd ≤ 1) ∧
      displayedStability TimePoint.day1 0 rnd = 1 := by
  refine ⟨⟨?_, ?_⟩, ?_⟩
  · have h := le_max_left (0.5 : ℚ) (min 1 (stabilityScore tp noise rnd))
    unfold displayedStability
    linarith [h]
  · exact max_le (by norm_num) (min_le_left _ _)
  · unfold displayedStability stabilityScore driverOrder
    rw [driverFeatures_noise0]
    norm_num [refOrder, sortByValueDesc, SAMPLE_FEATURES, List.insertionSort,
      List.orderedInsert, matchCount]

/-- C9 witness at `tp = day1`, `noise = 0`, constant random stream 0. -/
theorem c9_stability_witness :
    (0 : ℚ) ≤ 0 ∧ (0 : ℚ) ≤ 0.08 ∧
      ((1 / 2 ≤ displayedStability TimePoint.day1 0 (fun _ => 0) ∧
          displayedStability TimePoint.day1 0 (fun _ => 0) ≤ 1) ∧
        displayedStability TimePoint.day1 0 (fun _ => 0) = 1) :=
  ⟨le_refl 0, by norm_num,
    c9_stability TimePoint.day1 0 (fun _ => 0) (le_refl 0) (by norm_num)⟩

/-- C10: with the Show Fabric toggle off every rendered capability row has
fabric cell `false` (displayed "—") regardless of the row's fabric field;
the classic cell always equals the row's classic field independent of the
toggle; with the toggle on the fabric cell equals the row's fabric field. -/
theorem c10_fabric_rendering :
    ((renderedRows false).map (fun p => p.fabric) = List.replicate 8 false) ∧
    ((renderedRows false).map (fun p => cellText p.fabric) = List.replicate 8 "—") ∧
    (∀ b, (renderedRows b).map (fun p => p.classic) = capRows.map (fun p => p.classic)) ∧
    (∀ b, (renderedRows b).map (fun p => cellText p.classic) =
      capRows.map (fun p => cellText p.classic)) ∧
    ((renderedRows true).map (fun p => p.fabric) = capRows.map (fun p => p.fabric)) := by
  refine ⟨rfl, rfl, ?_, ?_, rfl⟩ <;> (intro b; cases b <;> rfl)

end ComRnd
